import Mathlib

/-!
Verification of the rummy-game-proto server core against its specification.

The definitions below are a shallow embedding of the TypeScript sources:
- src/lib/game/types.ts      (Card, PlayerState, GameState)
- src/lib/game/validator.ts  (RummyValidator)
- src/lib/game/deck.ts       (Deck)
- src/socket/roomManager.ts  (RoomManager)

Modelling conventions:
- Card ids are opaque unique uuid tokens in the source; they are modelled as
  sequential natural numbers (freshness and uniqueness are what the logic uses).
- Math.random in the Fisher-Yates shuffle is modelled by an arbitrary function
  rand : Nat -> Nat; at loop index i the drawn position is rand i % (i + 1),
  covering every value floor(random * (i + 1)) can take.
- Each RoomManager operation follows the pattern load / mutate / save against
  the external store; an operation is modelled as a function returning
  Option Room where some r means the mutated session was persisted via
  saveRoom and none means no saveRoom call happened (the stored session is
  unchanged).  RoomData.players and RoomData.gameState.players alias the same
  array in the source, so the model keeps a single players list.
-/

namespace Rummy

/-- Suit from src/lib/game/types.ts. -/
inductive Suit
  | spades
  | hearts
  | diamonds
  | clubs
deriving DecidableEq

/-- Rank from src/lib/game/types.ts; n2 .. n10 stand for the string ranks 2 .. 10. -/
inductive Rank
  | A
  | n2
  | n3
  | n4
  | n5
  | n6
  | n7
  | n8
  | n9
  | n10
  | J
  | Q
  | K
deriving DecidableEq

/-- Card from src/lib/game/types.ts.  The optional isJoker flag is modelled as a
plain Bool (the source always sets it when building decks); the uuid id is
modelled as a Nat. -/
structure Card where
  suit : Suit
  rank : Rank
  isJoker : Bool
  id : Nat
deriving DecidableEq

/-- RANK_VALUES / RummyValidator.getCardValue from src/lib/game/validator.ts. -/
def getCardValue : Rank → Nat
  | .A => 1
  | .n2 => 2
  | .n3 => 3
  | .n4 => 4
  | .n5 => 5
  | .n6 => 6
  | .n7 => 7
  | .n8 => 8
  | .n9 => 9
  | .n10 => 10
  | .J => 11
  | .Q => 12
  | .K => 13

/-- Insert a card into an already sorted list, after all cards of smaller or
equal key: this is the stable-insertion step used to model the (stable)
JavaScript Array.prototype.sort with a numeric comparator. -/
def insertByKey (key : Card → Nat) (x : Card) : List Card → List Card
  | [] => [x]
  | y :: ys => if key x < key y then x :: y :: ys else y :: insertByKey key x ys

/-- Stable sort by a numeric key, modelling cards.sort((a, b) => key(a) - key(b)). -/
def sortByKey (key : Card → Nat) (l : List Card) : List Card :=
  l.foldl (fun acc x => insertByKey key x acc) []

/-- RummyValidator.checkConsecutive: the loop body tests
getCardValue(sorted[i+1]) - getCardValue(sorted[i]) !== 1. -/
def checkConsecutive : List Card → Bool
  | [] => true
  | [_] => true
  | a :: b :: rest =>
    (getCardValue b.rank == getCardValue a.rank + 1) && checkConsecutive (b :: rest)

/-- RummyValidator.isPureSequence from src/lib/game/validator.ts. -/
def isPureSequence (cards : List Card) : Bool :=
  if cards.length < 3 then false
  else
    match cards with
    | [] => false
    | c0 :: _ =>
      if cards.any (fun c => c.suit != c0.suit || c.isJoker) then false
      else checkConsecutive (sortByKey (fun c => getCardValue c.rank) cards)

/-- The Set-of-suits loop in RummyValidator.isSet: each card must bring a suit
not seen before. -/
def distinctSuits : List Card → Bool
  | [] => true
  | c :: rest => (!rest.any (fun d => d.suit == c.suit)) && distinctSuits rest

/-- RummyValidator.isSet from src/lib/game/validator.ts. -/
def isSet (cards : List Card) (wildCard : Option Card) : Bool :=
  if cards.length < 3 || 4 < cards.length then false
  else
    let realCards := cards.filter fun c =>
      !c.isJoker && (match wildCard with
        | none => true
        | some w => c.rank != w.rank)
    match realCards with
    | [] => true
    | r0 :: _ =>
      if realCards.length < 2 then true
      else realCards.all (fun c => c.rank == r0.rank) && distinctSuits realCards

/-- RummyValidator.isImpureSequence from src/lib/game/validator.ts.  The source
body is the literal placeholder: after the length guard it executes
return true, the comment naming the intended algorithm (establish the suit,
count rank gaps, match them against the joker count) without implementing it. -/
def isImpureSequence (cards : List Card) (wildCard : Option Card) : Bool :=
  if cards.length < 3 then false
  else
    let _ := wildCard
    true

/-- Return shape of RummyValidator.validateHand. -/
structure ValidationResult where
  isValid : Bool
  error : Option String
deriving DecidableEq

/-- RummyValidator.validateHand from src/lib/game/validator.ts.  The loop only
records whether some group is a pure sequence (the hasSecondSeq flag is written
but never read, and the strict per-group validation is an unwritten comment). -/
def validateHand (groups : List (List Card)) (wildCard : Card) : ValidationResult :=
  let _ := wildCard
  let hasPure := groups.any (fun g => isPureSequence g)
  if !hasPure then { isValid := false, error := some "Need at least one Pure Sequence" }
  else { isValid := true, error := none }

/-- Shorthand for building a concrete non-joker card. -/
def mk (s : Suit) (r : Rank) (i : Nat) : Card :=
  { suit := s, rank := r, isJoker := false, id := i }

/-- C4: isImpureSequence accepts three pairwise differently suited, jokerless,
non-consecutive cards (2 of spades, 9 of hearts, K of diamonds), even though the
documented rule requires a single suit and joker-fillable gaps.  The same call
also shows the group is neither a pure sequence nor a set, and isPureSequence
rejects it, so the acceptance comes from the placeholder body alone. -/
theorem c4_isImpureSequence_accepts_unrelated_cards :
    isImpureSequence [mk .spades .n2 0, mk .hearts .n9 1, mk .diamonds .K 2] none = true ∧
    ([mk .spades .n2 0, mk .hearts .n9 1, mk .diamonds .K 2].map (fun c => c.suit)).Nodup ∧
    [mk .spades .n2 0, mk .hearts .n9 1, mk .diamonds .K 2].all (fun c => !c.isJoker) = true ∧
    isPureSequence [mk .spades .n2 0, mk .hearts .n9 1, mk .diamonds .K 2] = false ∧
    isSet [mk .spades .n2 0, mk .hearts .n9 1, mk .diamonds .K 2] none = false := by
  refine ⟨by decide, by decide, by decide, by decide, by decide⟩

/-- C1: validateHand declares the group list [[5s 6s 7s], [2h]] valid although
the single-card group [2h] classifies as invalid (it is rejected by all three
classifiers) and four cards cannot exhaust a 13/14 card hand: the source checks
nothing beyond the existence of one pure sequence and never receives the hand. -/
theorem c1_validateHand_ignores_invalid_groups_and_hand :
    validateHand [[mk .spades .n5 0, mk .spades .n6 1, mk .spades .n7 2], [mk .hearts .n2 3]]
        (mk .clubs .A 99) = { isValid := true, error := none } ∧
    isPureSequence [mk .hearts .n2 3] = false ∧
    isImpureSequence [mk .hearts .n2 3] (some (mk .clubs .A 99)) = false ∧
    isSet [mk .hearts .n2 3] (some (mk .clubs .A 99)) = false := by
  refine ⟨by decide, by decide, by decide, by decide⟩

/-! ## Deck (src/lib/game/deck.ts) -/

/-- The SUITS constant from src/lib/game/deck.ts. -/
def SUITS : List Suit := [.spades, .hearts, .diamonds, .clubs]

/-- The RANKS constant from src/lib/game/deck.ts. -/
def RANKS : List Rank := [.A, .n2, .n3, .n4, .n5, .n6, .n7, .n8, .n9, .n10, .J, .Q, .K]

/-- One 52-card suited pack, before id assignment: the two inner loops of the
deck constructor. -/
def onePack : List Card :=
  SUITS.flatMap (fun s => RANKS.map (fun r => { suit := s, rank := r, isJoker := false, id := 0 }))

/-- The outer numDecks loop of the deck constructor, before id assignment. -/
def rawDeck : Nat → List Card
  | 0 => []
  | d + 1 => onePack ++ rawDeck d

/-- Fresh uuid assignment, modelled as consecutive Nat tokens starting at k. -/
def assignIds : Nat → List Card → List Card
  | _, [] => []
  | k, c :: rest => { c with id := k } :: assignIds (k + 1) rest

/-- The Deck constructor body (numDecks, numJokers): numDecks suited packs followed by
numJokers printed jokers (placeholder suit hearts, rank A, isJoker = true),
each card with a fresh unique id. -/
def initDeck (numDecks numJokers : Nat) : List Card :=
  assignIds 0
    (rawDeck numDecks ++
      List.replicate numJokers { suit := Suit.hearts, rank := Rank.A, isJoker := true, id := 0 })

/-- One iteration of the Fisher-Yates loop in Deck.shuffle: swap positions i and
j when both are in range (they always are in the source loop). -/
def swapAt? (l : List Card) (i j : Nat) : List Card :=
  match l[i]?, l[j]? with
  | some a, some b => (l.set i b).set j a
  | _, _ => l

/-- The descending loop of Deck.shuffle: at index i + 1 the drawn partner is
rand (i + 1) % (i + 2), i.e. floor(Math.random() * (i + 2)). -/
def shuffleAux (rand : Nat → Nat) (l : List Card) : Nat → List Card
  | 0 => l
  | i + 1 => shuffleAux rand (swapAt? l (i + 1) (rand (i + 1) % (i + 2))) i

/-- Deck.shuffle, parameterised by the random stream. -/
def shuffle (rand : Nat → Nat) (l : List Card) : List Card :=
  shuffleAux rand l (l.length - 1)

/-- Deck.deal(n) = cards.splice(0, n): the dealt prefix and the remaining deck. -/
def dealCards (l : List Card) (n : Nat) : List Card × List Card :=
  (l.take n, l.drop n)

/-- assignIds preserves the number of cards. -/
theorem length_assignIds (k : Nat) (l : List Card) : (assignIds k l).length = l.length := by
  induction l generalizing k with
  | nil => rfl
  | cons c rest ih => simp [assignIds, ih]

/-- The raw multi-pack construction has 52 cards per pack. -/
theorem length_rawDeck (d : Nat) : (rawDeck d).length = 52 * d := by
  induction d with
  | zero => rfl
  | succ d ih =>
    have h52 : onePack.length = 52 := by decide
    simp [rawDeck, ih, h52, Nat.mul_succ]
    omega

/-- Replacing position i by a exchanges, at the multiset level, the old entry
for the new one. -/
theorem coe_set_add (l : List Card) (i : Nat) (a b : Card) (h : l[i]? = some b) :
    (↑(l.set i a) : Multiset Card) + {b} = ↑l + {a} := by
  induction l generalizing i with
  | nil => simp at h
  | cons x xs ih =>
    cases i with
    | zero =>
      simp only [List.getElem?_cons_zero, Option.some.injEq] at h
      subst h
      show (↑(a :: xs) : Multiset Card) + {x} = ↑(x :: xs) + {a}
      rw [← Multiset.cons_coe, ← Multiset.cons_coe, ← Multiset.singleton_add,
        ← Multiset.singleton_add]
      abel
    | succ i =>
      simp only [List.getElem?_cons_succ] at h
      show (↑(x :: xs.set i a) : Multiset Card) + {b} = ↑(x :: xs) + {a}
      rw [← Multiset.cons_coe, ← Multiset.cons_coe, Multiset.cons_add, Multiset.cons_add, ih i h]

/-- A single Fisher-Yates swap does not change the multiset of cards. -/
theorem coe_swapAt (l : List Card) (i j : Nat) :
    (↑(swapAt? l i j) : Multiset Card) = ↑l := by
  cases hi : l[i]? with
  | none => simp [swapAt?, hi]
  | some a =>
    cases hj : l[j]? with
    | none => simp [swapAt?, hi, hj]
    | some b =>
      have hswap : swapAt? l i j = (l.set i b).set j a := by
        simp [swapAt?, hi, hj]
      rw [hswap]
      have hb : (l.set i b)[j]? = some b := by
        by_cases hij : j = i
        · subst hij
          exact List.getElem?_set_self (List.getElem?_eq_some.mp hj).1
        · rw [List.getElem?_set_ne (Ne.symm hij)]
          exact hj
      have h1 := coe_set_add (l.set i b) j a b hb
      have h2 := coe_set_add l i b a hi
      exact add_right_cancel (h1.trans h2)

/-- The whole shuffle loop does not change the multiset of cards. -/
theorem coe_shuffleAux (rand : Nat → Nat) (l : List Card) (n : Nat) :
    (↑(shuffleAux rand l n) : Multiset Card) = ↑l := by
  induction n generalizing l with
  | zero => rfl
  | succ i ih =>
    rw [shuffleAux, ih, coe_swapAt]

/-- Deck.shuffle permutes the deck. -/
theorem shuffle_perm (rand : Nat → Nat) (l : List Card) : (shuffle rand l).Perm l :=
  Multiset.coe_eq_coe.mp (coe_shuffleAux rand l (l.length - 1))

/-- C8: a deck built with numDecks = d and numJokers = j holds exactly
52 d + j cards, and shuffle (for every random stream) leaves the multiset of
card ids unchanged: no card is created, dropped or duplicated. -/
theorem c8_deck_size_and_shuffle_perm (d j : Nat) (rand : Nat → Nat) :
    (initDeck d j).length = 52 * d + j ∧
    (↑((shuffle rand (initDeck d j)).map (fun c => c.id)) : Multiset Nat) =
      ↑((initDeck d j).map (fun c => c.id)) := by
  constructor
  · unfold initDeck
    rw [length_assignIds]
    simp [length_rawDeck]
  · exact Multiset.coe_eq_coe.mpr ((shuffle_perm rand (initDeck d j)).map (fun c => c.id))

/-! ## Session state and RoomManager (src/socket/roomManager.ts)

A stored session (RoomData) holds the player roster, the GameState and the
embedded deck snapshot; RoomData.players and RoomData.gameState.players are the
same array object in the source, so the model keeps one list.  An operation
returns some room exactly when the source reaches saveRoom (persisting the
mutation); none models every early return, where the stored record is left
untouched. -/

/-- PlayerState from src/lib/game/types.ts. -/
structure PlayerState where
  id : String
  name : String
  hand : List Card
  isMyTurn : Bool
  hasDropped : Bool
deriving DecidableEq

/-- GameState.status. -/
inductive Status
  | waiting
  | playing
  | ended
deriving DecidableEq

/-- The stored session: RoomData with the GameState fields inlined and the deck
snapshot as deckCards. -/
structure Room where
  id : String
  players : List PlayerState
  currentTurnPlayerId : String
  deckCount : Nat
  discardPile : List Card
  status : Status
  maxPlayers : Nat
  winner : Option String
  deckCards : List Card
deriving DecidableEq

/-- In-place mutation of the player object returned by players.find: update the
first roster entry whose id matches. -/
def updateFirstPlayer (pid : String) (f : PlayerState → PlayerState) :
    List PlayerState → List PlayerState
  | [] => []
  | p :: ps => if p.id = pid then f p :: ps else p :: updateFirstPlayer pid f ps

/-- players[i].isMyTurn = true, written with an in-range lookup (the source
indexes are always in range where this is used). -/
def setTurnAt (ps : List PlayerState) (i : Nat) : List PlayerState :=
  match ps[i]? with
  | some p => ps.set i { p with isMyTurn := true }
  | none => ps

/-- localeCompare order of the suit names: clubs < diamonds < hearts < spades. -/
def suitOrd : Suit → Nat
  | .clubs => 0
  | .diamonds => 1
  | .hearts => 2
  | .spades => 3

/-- Card → Nat key reusing the pure insertByKey sorter for the hand sort in
startGame: player.hand.sort((a, b) => a.suit.localeCompare(b.suit)). -/
def sortBySuit (hand : List Card) : List Card :=
  sortByKey (fun c => suitOrd c.suit) hand

/-- RoomManager.createRoom: a fresh waiting session with an embedded shuffled
two-deck-two-joker snapshot; the uuid room code and Math.random stream are
parameters. -/
def createRoom (roomId : String) (maxPlayers : Nat) (rand : Nat → Nat) : Room :=
  let deck := shuffle rand (initDeck 2 2)
  { id := roomId
    players := []
    currentTurnPlayerId := ""
    deckCount := deck.length
    discardPile := []
    status := .waiting
    maxPlayers := maxPlayers
    winner := none
    deckCards := deck }

/-- RoomManager.joinRoom.  A re-join of a present player refreshes only the
socket→room index, never the session record, so it is none here; full rooms and
started games are rejected; otherwise a fresh empty-handed player is appended. -/
def joinRoom (room : Room) (pid playerName : String) : Option Room :=
  if room.players.any (fun p => p.id = pid) then none
  else if room.maxPlayers ≤ room.players.length then none
  else if room.status ≠ Status.waiting then none
  else
    some { room with
      players := room.players ++
        [{ id := pid, name := playerName, hand := [], isMyTurn := false, hasDropped := false }] }

/-- The players.forEach dealing loop of RoomManager.startGame: each player in
join order takes 13 cards off the shared deck and has the dealt hand sorted by
suit. -/
def dealHands : List PlayerState → List Card → List PlayerState × List Card
  | [], deck => ([], deck)
  | p :: ps, deck =>
    let dealt := dealCards deck 13
    let rest := dealHands ps dealt.2
    ({ p with hand := sortBySuit dealt.1 } :: rest.1, rest.2)

/-- players[0].id under the ≥ 2 players guard (the roster is never empty
there). -/
def firstPlayerId : List PlayerState → String
  | [] => ""
  | p :: _ => p.id

/-- RoomManager.startGame.  The only guard in the source is players.length < 2:
the current status is never consulted.  Deals 13 cards to every player, seeds
the discard pile with one drawn card when the deck still has one, gives the
turn to players[0] and records the remaining deck count. -/
def startGame (room : Room) : Option Room :=
  if room.players.length < 2 then none
  else
    let dealt := dealHands room.players room.deckCards
    let afterOpen : List Card × List Card :=
      match dealt.2 with
      | [] => (room.discardPile, [])
      | c :: rest => (room.discardPile ++ [c], rest)
    let players2 := setTurnAt dealt.1 0
    some { room with
      status := .playing
      players := players2
      discardPile := afterOpen.1
      deckCards := afterOpen.2
      currentTurnPlayerId := firstPlayerId dealt.1
      deckCount := afterOpen.2.length }

/-- RoomManager.drawCard.  Requires the player to exist, hold the turn and have
fewer than 14 cards; fromDiscard pops the top (last) discard, otherwise the
front deck card is drawn; an empty source yields no save.  The drawn card is
appended to the hand and deckCount refreshed. -/
def drawCard (room : Room) (pid : String) (fromDiscard : Bool) : Option Room :=
  match room.players.find? (fun p => p.id = pid) with
  | none => none
  | some player =>
    if !player.isMyTurn then none
    else if 14 ≤ player.hand.length then none
    else if fromDiscard then
      match room.discardPile.getLast? with
      | none => none
      | some card =>
        some { room with
          discardPile := room.discardPile.dropLast
          players := updateFirstPlayer pid
            (fun p => { p with hand := p.hand ++ [card] }) room.players
          deckCount := room.deckCards.length }
    else
      match room.deckCards with
      | [] => none
      | card :: rest =>
        some { room with
          deckCards := rest
          players := updateFirstPlayer pid
            (fun p => { p with hand := p.hand ++ [card] }) room.players
          deckCount := rest.length }

/-- RoomManager.discardCard.  Requires turn and a 14-card hand; the card index
is looked up by id (findIndex = -1, i.e. an out-of-range lookup here, means no
save); the card is spliced out and appended to the discard pile, the acting
player's flag cleared, and the turn handed to the next roster index modulo the
player count.  The inner lookup of the next player is always in range since the
actor was found. -/
def discardCard (room : Room) (pid : String) (cardId : Nat) : Option Room :=
  match room.players.find? (fun p => p.id = pid) with
  | none => none
  | some player =>
    if !player.isMyTurn then none
    else if player.hand.length ≠ 14 then none
    else
      let cardIndex := player.hand.findIdx (fun c => c.id = cardId)
      match player.hand[cardIndex]? with
      | none => none
      | some discarded =>
        let players1 := updateFirstPlayer pid
          (fun p => { p with hand := p.hand.eraseIdx cardIndex, isMyTurn := false })
          room.players
        let currentPlayerIndex := players1.findIdx (fun p => p.id = pid)
        let nextIdx := (currentPlayerIndex + 1) % players1.length
        match players1[nextIdx]? with
        | none => none
        | some nextP =>
          some { room with
            players := players1.set nextIdx { nextP with isMyTurn := true }
            discardPile := room.discardPile ++ [discarded]
            currentTurnPlayerId := nextP.id }

/-- The Map built from hand entries in RoomManager.rearrangeHand: a JavaScript
Map keeps the last binding of a key, so lookup is find? over the reversed
hand. -/
def cardMapGet (hand : List Card) (i : Nat) : Option Card :=
  hand.reverse.find? (fun c => c.id = i)

/-- RoomManager.rearrangeHand.  Accepts any newOrderIds list with the same
length as the hand whose every entry occurs among the hand ids (a Set-membership
check, not a multiset one), then rebuilds the hand by id lookup in order. -/
def rearrangeHand (room : Room) (pid : String) (newOrderIds : List Nat) : Option Room :=
  match room.players.find? (fun p => p.id = pid) with
  | none => none
  | some player =>
    if newOrderIds.length ≠ player.hand.length then none
    else if !newOrderIds.all (fun i => player.hand.any (fun c => c.id = i)) then none
    else
      let newHand := newOrderIds.filterMap (cardMapGet player.hand)
      some { room with
        players := updateFirstPlayer pid (fun p => { p with hand := newHand }) room.players }

/-- RoomManager.debugWin: whenever the acting player is on the roster the
session is ended with that player as winner, whatever the current status or
winner; an unknown player means no save. -/
def debugWin (room : Room) (pid : String) : Option Room :=
  match room.players.find? (fun p => p.id = pid) with
  | none => none
  | some player =>
    some { room with status := .ended, winner := some player.id }

/-- The room part of RoomManager.handleDisconnect (the queue cleanup touches
only queue keys).  During play with exactly two players the source mutates its
in-memory copy and broadcasts but never calls saveRoom (it only shortens the
record TTL), so the stored session is unchanged: none.  With more players the
leaver is spliced out and, if they held the turn, the player now at that index
(wrapping to 0 past the end) receives it; the later length === 1 end-of-game
write is also unreached/unsaved.  Outside play the leaver is just removed. -/
def handleDisconnect (room : Room) (pid : String) : Option Room :=
  let playerIndex := room.players.findIdx (fun p => p.id = pid)
  match room.players[playerIndex]? with
  | none => none
  | some player =>
    if room.status = Status.playing then
      if room.players.length = 2 then none
      else
        let players1 := room.players.eraseIdx playerIndex
        if player.isMyTurn && decide (0 < players1.length) then
          let nextIdx := if players1.length ≤ playerIndex then 0 else playerIndex
          match players1[nextIdx]? with
          | none => none
          | some nextP =>
            some { room with
              players := players1.set nextIdx { nextP with isMyTurn := true }
              currentTurnPlayerId := nextP.id }
        else
          some { room with players := players1 }
    else
      some { room with players := room.players.eraseIdx playerIndex }

/-! ## C2: draw gating -/

/-- A turn-holder with only 12 cards. -/
def c2pA : PlayerState :=
  { id := "A", name := "a", hand := (List.range 12).map (fun k => mk .spades .A (100 + k)),
    isMyTurn := true, hasDropped := false }

/-- A playing session whose turn-holder has 12 cards and whose deck still has a
card. -/
def c2room : Room :=
  { id := "R", players := [c2pA], currentTurnPlayerId := "A", deckCount := 1,
    discardPile := [], status := .playing, maxPlayers := 6, winner := none,
    deckCards := [mk .clubs .n3 60] }

/-- The stored state after the 12-card draw. -/
def c2roomAfter : Room := (drawCard c2room "A" false).getD c2room

/-- C2 counterexample: a player holding 12 cards (fewer than the exactly 13 the
claim requires) draws successfully and the stored session changes: the guard in
the source is hand.length >= 14, not an exact-13 check. -/
theorem c2_draw_at_twelve_cards_changes_state :
    drawCard c2room "A" false = some c2roomAfter ∧
    c2roomAfter ≠ c2room ∧
    (c2room.players.find? (fun q => q.id = "A")).map (fun p => p.hand.length) = some 12 := by
  refine ⟨by decide, by decide, by decide⟩

/-- C2 amended: a draw_card request changes the stored session only when the
acting player is on the roster with isMyTurn = true and holds at most 13 cards
(hand length < 14); holding exactly 13 is not required. -/
theorem c2_draw_guard (room r2 : Room) (pid : String) (fd : Bool) (p : PlayerState)
    (hf : room.players.find? (fun q => q.id = pid) = some p)
    (h : drawCard room pid fd = some r2) :
    p.isMyTurn = true ∧ p.hand.length < 14 := by
  unfold drawCard at h
  rw [hf] at h
  by_cases ht : p.isMyTurn = true
  · by_cases hl : 14 ≤ p.hand.length
    · simp [ht, hl] at h
    · exact ⟨ht, by omega⟩
  · simp [Bool.not_eq_true] at ht
    simp [ht] at h

/-- C2 witness: the amended guard evaluated on the concrete 12-card draw. -/
theorem c2_draw_guard_witness : c2pA.isMyTurn = true ∧ c2pA.hand.length < 14 :=
  c2_draw_guard c2room c2roomAfter "A" false c2pA (by decide) (by decide)

/-! ## C3: start_game guard -/

/-- Two players already in play. -/
def c3pA : PlayerState :=
  { id := "A", name := "a", hand := [mk .spades .n4 1], isMyTurn := false, hasDropped := false }

/-- Second player, currently holding the turn. -/
def c3pB : PlayerState :=
  { id := "B", name := "b", hand := [mk .hearts .n9 2], isMyTurn := true, hasDropped := false }

/-- A session that is already playing. -/
def c3room : Room :=
  { id := "R", players := [c3pA, c3pB], currentTurnPlayerId := "B", deckCount := 30,
    discardPile := [], status := .playing, maxPlayers := 4, winner := none,
    deckCards := (List.range 30).map (fun k => mk .hearts .n3 (200 + k)) }

/-- The stored state after restarting the playing session. -/
def c3roomAfter : Room := (startGame c3room).getD c3room

/-- C3 counterexample: start_game on a session whose status is playing succeeds
and rewrites the stored session (hands are re-dealt from the remaining deck):
the source only checks players.length < 2 and never consults the status. -/
theorem c3_start_on_playing_changes_state :
    startGame c3room = some c3roomAfter ∧
    c3room.status = .playing ∧
    c3roomAfter ≠ c3room := by
  refine ⟨by decide, by decide, by decide⟩

/-- C3 amended: start_game changes the stored session exactly when the session
has at least 2 players; the waiting status is not required, so playing and
ended sessions are restarted as well. -/
theorem c3_start_guard (room r2 : Room) :
    (startGame room = some r2 → 2 ≤ room.players.length ∧ r2.status = .playing) ∧
    (2 ≤ room.players.length → (startGame room).isSome = true) := by
  constructor
  · intro h
    unfold startGame at h
    by_cases hlt : room.players.length < 2
    · simp [hlt] at h
    · refine ⟨by omega, ?_⟩
      simp only [if_neg hlt, Option.some.injEq] at h
      rw [← h]
  · intro h2
    unfold startGame
    rw [if_neg (by omega)]
    rfl

/-- C3 witness: the amended guard evaluated on the concrete restart. -/
theorem c3_start_guard_witness :
    (2 ≤ c3room.players.length ∧ c3roomAfter.status = .playing) ∧
    (startGame c3room).isSome = true :=
  ⟨(c3_start_guard c3room c3roomAfter).1 (by decide),
   (c3_start_guard c3room c3roomAfter).2 (by decide)⟩

/-! ## C10: debug_win -/

/-- C10: debug_win is a no-op on the store when the acting player is not on the
roster, and otherwise ends the session with that player as winner regardless of
the current status or of any previously recorded winner. -/
theorem c10_debugWin_spec (room : Room) (pid : String) (p : PlayerState) :
    (room.players.find? (fun q => q.id = pid) = none → debugWin room pid = none) ∧
    (room.players.find? (fun q => q.id = pid) = some p →
      debugWin room pid = some { room with status := .ended, winner := some p.id }) := by
  constructor
  · intro hf
    unfold debugWin
    rw [hf]
  · intro hf
    unfold debugWin
    rw [hf]

/-- Roster entry used by the C10 witness. -/
def c10pA : PlayerState :=
  { id := "A", name := "a", hand := [], isMyTurn := false, hasDropped := false }

/-- An already ended session with a recorded winner B, with player A present. -/
def c10roomEnded : Room :=
  { id := "R", players := [c10pA], currentTurnPlayerId := "", deckCount := 0,
    discardPile := [], status := .ended, maxPlayers := 6, winner := some "B",
    deckCards := [] }

/-- Roster entry B for the C10 witness. -/
def c10pB : PlayerState :=
  { id := "B", name := "b", hand := [], isMyTurn := false, hasDropped := false }

/-- A waiting session in which player A is absent. -/
def c10roomNoA : Room :=
  { id := "R", players := [c10pB], currentTurnPlayerId := "", deckCount := 0,
    discardPile := [], status := .waiting, maxPlayers := 6, winner := none,
    deckCards := [] }

/-- C10 witness: no-op for an absent player, and an ended session's winner is
overwritten for a present one. -/
theorem c10_debugWin_witness :
    debugWin c10roomNoA "A" = none ∧
    debugWin c10roomEnded "A" =
      some { c10roomEnded with status := .ended, winner := some "A" } :=
  ⟨(c10_debugWin_spec c10roomNoA "A" c10pA).1 (by decide),
   (c10_debugWin_spec c10roomEnded "A" c10pA).2 (by decide)⟩

/-! ## C9: card conservation under draw and discard -/

/-- The multiset of cards held in all players' hands. -/
def handsSum (ps : List PlayerState) : Multiset Card :=
  (ps.map (fun p => (↑p.hand : Multiset Card))).sum

/-- The combined multiset of cards in the three zones of a session: deck,
discard pile and hands. -/
def cardPool (room : Room) : Multiset Card :=
  ↑room.deckCards + ↑room.discardPile + handsSum room.players

/-- Updating the first player carrying pid exchanges that player's hand inside
the total hand multiset. -/
theorem handsSum_updateFirst (pid : String) (f : PlayerState → PlayerState)
    (ps : List PlayerState) (p : PlayerState)
    (hf : ps.find? (fun q => q.id = pid) = some p) :
    handsSum (updateFirstPlayer pid f ps) + ↑p.hand = handsSum ps + ↑(f p).hand := by
  induction ps with
  | nil => simp at hf
  | cons q qs ih =>
    by_cases hq : q.id = pid
    · rw [List.find?_cons_of_pos _ (by simp [hq])] at hf
      have hpq : p = q := (Option.some.inj hf).symm
      subst hpq
      simp [updateFirstPlayer, hq, handsSum]
      abel
    · rw [List.find?_cons_of_neg _ (by simp [hq])] at hf
      have ih2 := ih hf
      simp only [updateFirstPlayer, if_neg hq]
      simp only [handsSum, List.map_cons, List.sum_cons] at ih2 ⊢
      rw [add_assoc, ih2, ← add_assoc]

/-- Setting roster index i exchanges that player's hand inside the total hand
multiset. -/
theorem handsSum_set (ps : List PlayerState) (i : Nat) (q q2 : PlayerState)
    (hq : ps[i]? = some q) :
    handsSum (ps.set i q2) + ↑q.hand = handsSum ps + ↑q2.hand := by
  induction ps generalizing i with
  | nil => simp at hq
  | cons x xs ih =>
    cases i with
    | zero =>
      simp only [List.getElem?_cons_zero, Option.some.injEq] at hq
      subst hq
      simp [List.set, handsSum]
      abel
    | succ i =>
      simp only [List.getElem?_cons_succ] at hq
      have ih2 := ih i hq
      simp only [List.set, handsSum, List.map_cons, List.sum_cons] at ih2 ⊢
      rw [add_assoc, ih2, ← add_assoc]

/-- Removing index i removes exactly that card from the hand multiset. -/
theorem coe_eraseIdx_add (l : List Card) (i : Nat) (c : Card) (hc : l[i]? = some c) :
    (↑(l.eraseIdx i) : Multiset Card) + {c} = ↑l := by
  induction l generalizing i with
  | nil => simp at hc
  | cons x xs ih =>
    cases i with
    | zero =>
      simp only [List.getElem?_cons_zero, Option.some.injEq] at hc
      subst hc
      show (↑xs : Multiset Card) + {x} = ↑(x :: xs)
      rw [add_comm, Multiset.singleton_add, Multiset.cons_coe]
    | succ i =>
      simp only [List.getElem?_cons_succ] at hc
      show (↑(x :: xs.eraseIdx i) : Multiset Card) + {c} = ↑(x :: xs)
      rw [← Multiset.cons_coe, ← Multiset.cons_coe, Multiset.cons_add, ih i hc]

/-- A list is its dropLast plus its last element at the multiset level. -/
theorem coe_dropLast_add (l : List Card) (c : Card) (hc : l.getLast? = some c) :
    (↑l.dropLast : Multiset Card) + {c} = ↑l := by
  obtain ⟨ys, rfl⟩ := List.getLast?_eq_some_iff.mp hc
  rw [List.dropLast_concat]
  show (↑ys : Multiset Card) + {c} = ↑(ys ++ [c])
  rw [← Multiset.coe_add]
  rfl

/-- C9: a successful draw_card (from either source) and a successful
discard_card both preserve the combined multiset of cards across the deck, the
discard pile and every hand: cards only move between zones. -/
theorem c9_card_conservation (room r2 : Room) (pid : String) (fd : Bool) (cid : Nat) :
    (drawCard room pid fd = some r2 → cardPool r2 = cardPool room) ∧
    (discardCard room pid cid = some r2 → cardPool r2 = cardPool room) := by
  constructor
  · intro h
    unfold drawCard at h
    cases hf : room.players.find? (fun p => p.id = pid) with
    | none => rw [hf] at h; exact absurd h (by simp)
    | some p =>
      rw [hf] at h
      by_cases ht : p.isMyTurn = true
      swap
      · simp only [Bool.not_eq_true] at ht
        simp [ht] at h
      by_cases hl : 14 ≤ p.hand.length
      · simp [ht, hl] at h
      simp only [ht, Bool.not_true, Bool.false_eq_true, if_false, if_neg hl] at h
      cases fd with
      | false =>
        simp only [Bool.false_eq_true, if_false] at h
        cases hdk : room.deckCards with
        | nil => rw [hdk] at h; exact absurd h (by simp)
        | cons card rest =>
          rw [hdk] at h
          have hr2 := (Option.some.inj h).symm
          have hpool : cardPool r2 = ↑rest + ↑room.discardPile +
              handsSum (updateFirstPlayer pid
                (fun q => { q with hand := q.hand ++ [card] }) room.players) := by
            rw [hr2]
            rfl
          have key := handsSum_updateFirst pid
            (fun q => { q with hand := q.hand ++ [card] }) room.players p hf
          have hx : (↑(p.hand ++ [card]) : Multiset Card) = ↑p.hand + {card} := by
            rw [← Multiset.coe_add, Multiset.coe_singleton]
          have hx2 : (↑(((fun q => { q with hand := q.hand ++ [card] }) p : PlayerState).hand) : Multiset Card) = ↑p.hand + {card} := hx
          have key2 := key.trans (congrArg (fun s => handsSum room.players + s) hx2)
          have hdk2 : (↑room.deckCards : Multiset Card) = ↑rest + {card} := by
            rw [hdk, ← Multiset.cons_coe, ← Multiset.singleton_add]
            exact add_comm _ _
          have hmain : cardPool r2 + ↑p.hand = cardPool room + ↑p.hand := by
            rw [hpool]
            unfold cardPool
            rw [hdk2, add_assoc ((↑rest : Multiset Card) + ↑room.discardPile), key2]
            abel_nf
          exact add_right_cancel hmain
      | true =>
        simp only [if_true] at h
        cases hlast : room.discardPile.getLast? with
        | none => rw [hlast] at h; exact absurd h (by simp)
        | some card =>
          rw [hlast] at h
          have hr2 := (Option.some.inj h).symm
          have hpool : cardPool r2 = ↑room.deckCards + ↑room.discardPile.dropLast +
              handsSum (updateFirstPlayer pid
                (fun q => { q with hand := q.hand ++ [card] }) room.players) := by
            rw [hr2]
            rfl
          have key := handsSum_updateFirst pid
            (fun q => { q with hand := q.hand ++ [card] }) room.players p hf
          have hx : (↑(p.hand ++ [card]) : Multiset Card) = ↑p.hand + {card} := by
            rw [← Multiset.coe_add, Multiset.coe_singleton]
          have hx2 : (↑(((fun q => { q with hand := q.hand ++ [card] }) p : PlayerState).hand) : Multiset Card) = ↑p.hand + {card} := hx
          have key2 := key.trans (congrArg (fun s => handsSum room.players + s) hx2)
          have hpile := coe_dropLast_add room.discardPile card hlast
          have hmain : cardPool r2 + ↑p.hand = cardPool room + ↑p.hand := by
            rw [hpool]
            unfold cardPool
            rw [add_assoc ((↑room.deckCards : Multiset Card) + ↑room.discardPile.dropLast), key2, ← hpile]
            abel_nf
          exact add_right_cancel hmain
  · intro h
    unfold discardCard at h
    cases hf : room.players.find? (fun p => p.id = pid) with
    | none => rw [hf] at h; exact absurd h (by simp)
    | some p =>
      rw [hf] at h
      by_cases ht : p.isMyTurn = true
      swap
      · simp only [Bool.not_eq_true] at ht
        simp [ht] at h
      by_cases hl : p.hand.length = 14
      swap
      · simp [ht, hl] at h
      simp only [ht, Bool.not_true, Bool.false_eq_true, if_false, hl, ne_eq,
        not_true_eq_false, if_neg, not_false_eq_true] at h
      cases hcard : p.hand[p.hand.findIdx (fun c => c.id = cid)]? with
      | none => rw [hcard] at h; exact absurd h (by simp)
      | some discarded =>
        rw [hcard] at h
        generalize hp1 : updateFirstPlayer pid (fun q => { q with hand := q.hand.eraseIdx (p.hand.findIdx (fun c => c.id = cid)), isMyTurn := false }) room.players = players1 at h
        generalize hidx : (players1.findIdx (fun q => q.id = pid) + 1) % players1.length =
          nextIdx at h
        cases hnext : players1[nextIdx]? with
        | none => rw [hnext] at h; exact absurd h (by simp)
        | some nextP =>
          rw [hnext] at h
          have hr2 := (Option.some.inj h).symm
          have hpool : cardPool r2 = ↑room.deckCards +
              ↑(room.discardPile ++ [discarded]) +
              handsSum (players1.set nextIdx { nextP with isMyTurn := true }) := by
            rw [hr2]
            rfl
          have hset := handsSum_set players1 nextIdx nextP { nextP with isMyTurn := true } hnext
          have hset2 : handsSum (players1.set nextIdx { nextP with isMyTurn := true }) =
              handsSum players1 := add_right_cancel hset
          have hupd := handsSum_updateFirst pid (fun q => { q with hand := q.hand.eraseIdx (p.hand.findIdx (fun c => c.id = cid)), isMyTurn := false }) room.players p hf
          rw [hp1] at hupd
          have hupd2 : handsSum players1 + ↑p.hand =
              handsSum room.players +
                ↑(p.hand.eraseIdx (p.hand.findIdx (fun c => c.id = cid))) := hupd
          have herase := coe_eraseIdx_add p.hand (p.hand.findIdx (fun c => c.id = cid))
            discarded hcard
          have hpileM : (↑(room.discardPile ++ [discarded]) : Multiset Card) =
              ↑room.discardPile + {discarded} := by
            rw [← Multiset.coe_add, Multiset.coe_singleton]
          have hmain : cardPool r2 + ↑p.hand = cardPool room + ↑p.hand := by
            rw [hpool, hset2]
            unfold cardPool
            rw [hpileM, add_assoc ((↑room.deckCards : Multiset Card) + (↑room.discardPile + {discarded})),
              hupd2, ← herase]
            abel_nf
          exact add_right_cancel hmain

/-- Session used by the C9 witness: two players in play, A holding 14 cards. -/
def c9pA : PlayerState :=
  { id := "A", name := "a", hand := (List.range 14).map (fun k => mk .spades .A (300 + k)),
    isMyTurn := true, hasDropped := false }

/-- Second roster entry for the C9 witness. -/
def c9pB : PlayerState :=
  { id := "B", name := "b", hand := [mk .hearts .n2 400], isMyTurn := false,
    hasDropped := false }

/-- Playing session for the C9 witness. -/
def c9room : Room :=
  { id := "R", players := [c9pA, c9pB], currentTurnPlayerId := "A", deckCount := 1,
    discardPile := [mk .clubs .n8 401], status := .playing, maxPlayers := 4,
    winner := none, deckCards := [mk .diamonds .J 402] }

/-- A 13-card variant of c9room in which A may draw. -/
def c9roomDraw : Room :=
  { c9room with players :=
      [{ c9pA with hand := c9pA.hand.take 13 }, c9pB] }

/-- Stored state after A draws from the deck. -/
def c9roomDrawAfter : Room := (drawCard c9roomDraw "A" false).getD c9roomDraw

/-- Stored state after A discards card 300. -/
def c9roomDiscAfter : Room := (discardCard c9room "A" 300).getD c9room

/-- C9 witness: the conservation theorem applied to one concrete successful
draw and one concrete successful discard. -/
theorem c9_card_conservation_witness :
    cardPool c9roomDrawAfter = cardPool c9roomDraw ∧
    cardPool c9roomDiscAfter = cardPool c9room :=
  ⟨(c9_card_conservation c9roomDraw c9roomDrawAfter "A" false 0).1 (by decide),
   (c9_card_conservation c9room c9roomDiscAfter "A" false 300).2 (by decide)⟩

/-! ## C6: rearrange_hand -/

/-- When some card in the hand carries id i, the hand map lookup finds a card
with that id. -/
theorem cardMapGet_of_any (hand : List Card) (i : Nat)
    (h : hand.any (fun c => c.id = i) = true) :
    ∃ c, cardMapGet hand i = some c ∧ c.id = i := by
  unfold cardMapGet
  cases hfind : hand.reverse.find? (fun c => c.id = i) with
  | none =>
    obtain ⟨x, hx, hxi⟩ := List.any_eq_true.mp h
    have := List.find?_eq_none.mp hfind x (List.mem_reverse.mpr hx)
    exact absurd hxi this
  | some c =>
    exact ⟨c, rfl, by simpa using List.find?_some hfind⟩

/-- Rebuilding a hand from an id list whose every entry occurs in the hand
reproduces exactly that id list. -/
theorem map_id_filterMap_cardMapGet (hand : List Card) (ids : List Nat)
    (hall : ∀ i ∈ ids, hand.any (fun c => c.id = i) = true) :
    (ids.filterMap (cardMapGet hand)).map (fun c => c.id) = ids := by
  induction ids with
  | nil => rfl
  | cons i is ih =>
    obtain ⟨c, hc, hci⟩ := cardMapGet_of_any hand i (hall i (by simp))
    rw [List.filterMap_cons, hc]
    simp only [List.map_cons, hci]
    rw [ih (fun j hj => hall j (by simp [hj]))]

/-- With pairwise distinct ids, find? by a member's id returns that member. -/
theorem find?_eq_of_nodup_ids (l : List Card) (c : Card)
    (hnd : (l.map (fun d => d.id)).Nodup) (hmem : c ∈ l) :
    l.find? (fun d => d.id = c.id) = some c := by
  induction l with
  | nil => simp at hmem
  | cons x xs ih =>
    simp only [List.map_cons, List.nodup_cons] at hnd
    by_cases hx : x.id = c.id
    · have hcx : c = x := by
        cases List.mem_cons.mp hmem with
        | inl h => exact h
        | inr h =>
          exact absurd (hx ▸ List.mem_map.mpr ⟨c, h, rfl⟩) hnd.1
      rw [List.find?_cons]
      simp [hx, hcx]
    · have hcxs : c ∈ xs := by
        cases List.mem_cons.mp hmem with
        | inl h => exact absurd (by rw [h]) hx
        | inr h => exact h
      rw [List.find?_cons]
      have hdx : (decide (x.id = c.id)) = false := decide_eq_false hx
      rw [hdx]
      exact ih hnd.2 hcxs

/-- With pairwise distinct hand ids, the map lookup by a member's id returns
that member. -/
theorem cardMapGet_of_mem (hand : List Card) (c : Card)
    (hnd : (hand.map (fun d => d.id)).Nodup) (hmem : c ∈ hand) :
    cardMapGet hand c.id = some c := by
  unfold cardMapGet
  refine find?_eq_of_nodup_ids hand.reverse c ?_ (List.mem_reverse.mpr hmem)
  rw [List.map_reverse]
  exact List.nodup_reverse.mpr hnd

/-- With pairwise distinct hand ids, rebuilding the hand from its own id list
reproduces the hand. -/
theorem filterMap_cardMapGet_self (hand : List Card)
    (hnd : (hand.map (fun d => d.id)).Nodup) :
    (hand.map (fun d => d.id)).filterMap (cardMapGet hand) = hand := by
  rw [List.filterMap_map]
  have hcongr : ∀ c ∈ hand, (cardMapGet hand ∘ fun d => d.id) c = some c := by
    intro c hc
    exact cardMapGet_of_mem hand c hnd hc
  rw [List.filterMap_congr hcongr, List.filterMap_some]

/-- A's three-card hand for the C6 counterexample. -/
def c6pA : PlayerState :=
  { id := "A", name := "a",
    hand := [mk .spades .n5 10, mk .hearts .n7 11, mk .clubs .K 12],
    isMyTurn := true, hasDropped := false }

/-- Session for the C6 counterexample. -/
def c6room : Room :=
  { id := "R", players := [c6pA], currentTurnPlayerId := "A", deckCount := 0,
    discardPile := [], status := .playing, maxPlayers := 6, winner := none,
    deckCards := [] }

/-- Stored state after the duplicate-id rearrange. -/
def c6roomAfter : Room := (rearrangeHand c6room "A" [10, 10, 11]).getD c6room

/-- C6 counterexample: newOrderIds = [10, 10, 11] passes the length and
Set-membership checks against the hand with ids [10, 11, 12], and the rebuilt
hand duplicates card 10 while dropping card 12 — not a permutation of the hand
before, so the claim fails on id lists with repeats. -/
theorem c6_rearrange_with_repeats_duplicates_cards :
    rearrangeHand c6room "A" [10, 10, 11] = some c6roomAfter ∧
    c6roomAfter.players.map (fun p => p.hand.map (fun c => c.id)) = [[10, 10, 11]] ∧
    ¬ (([10, 10, 11] : List Nat).Perm [10, 11, 12]) := by
  refine ⟨by decide, by decide, by decide⟩

/-- C6 amended: an accepted rearrange_hand rebuilds the acting player's hand to
exactly the cards named by newOrderIds in that order (everything else
unchanged); it is a permutation of the previous hand whenever newOrderIds has
no duplicates, but duplicate entries can clone and drop cards. -/
theorem c6_rearrange_spec (room r2 : Room) (pid : String) (ids : List Nat) (p : PlayerState)
    (hf : room.players.find? (fun q => q.id = pid) = some p)
    (h : rearrangeHand room pid ids = some r2) :
    r2.players = updateFirstPlayer pid
      (fun q => { q with hand := ids.filterMap (cardMapGet p.hand) }) room.players ∧
    (ids.filterMap (cardMapGet p.hand)).map (fun c => c.id) = ids ∧
    (ids.Nodup → (ids.filterMap (cardMapGet p.hand)).Perm p.hand) := by
  unfold rearrangeHand at h
  rw [hf] at h
  by_cases hlen : ids.length = p.hand.length
  swap
  · simp [hlen] at h
  by_cases hall : ids.all (fun i => p.hand.any (fun c => c.id = i)) = true
  swap
  · simp only [Bool.not_eq_true] at hall
    simp [hlen, hall] at h
  simp only [hlen, ne_eq, not_true_eq_false, if_false, hall, Bool.not_true,
    Bool.false_eq_true] at h
  have hr2 := (Option.some.inj h).symm
  have hallm : ∀ i ∈ ids, p.hand.any (fun c => c.id = i) = true := List.all_eq_true.mp hall
  refine ⟨by rw [hr2], map_id_filterMap_cardMapGet p.hand ids hallm, ?_⟩
  intro hnodup
  have hsub : ids ⊆ p.hand.map (fun d => d.id) := by
    intro i hi
    obtain ⟨x, hx, hxi⟩ := List.any_eq_true.mp (hallm i hi)
    exact List.mem_map.mpr ⟨x, hx, by simpa using hxi⟩
  have hlen2 : (p.hand.map (fun d => d.id)).length ≤ ids.length := by
    rw [List.length_map, hlen]
  have hperm_ids : ids.Perm (p.hand.map (fun d => d.id)) :=
    (hnodup.subperm hsub).perm_of_length_le hlen2
  have hnd_hand : (p.hand.map (fun d => d.id)).Nodup := hperm_ids.nodup hnodup
  have h1 := hperm_ids.filterMap (cardMapGet p.hand)
  rw [filterMap_cardMapGet_self p.hand hnd_hand] at h1
  exact h1

/-- Stored state after a legitimate (duplicate-free) rearrange for the C6
witness. -/
def c6roomGood : Room := (rearrangeHand c6room "A" [12, 10, 11]).getD c6room

/-- C6 witness: the amended statement applied to a concrete accepted reorder
with distinct ids. -/
theorem c6_rearrange_spec_witness :
    (([12, 10, 11] : List Nat).filterMap (cardMapGet c6pA.hand)).map (fun c => c.id) =
      [12, 10, 11] ∧
    (([12, 10, 11] : List Nat).filterMap (cardMapGet c6pA.hand)).Perm c6pA.hand :=
  ⟨(c6_rearrange_spec c6room c6roomGood "A" [12, 10, 11] c6pA (by decide) (by decide)).2.1,
   (c6_rearrange_spec c6room c6roomGood "A" [12, 10, 11] c6pA (by decide) (by decide)).2.2
     (by decide)⟩

/-! ## C7: discard and turn advance -/

/-- find? by id over a roster split around the first occurrence of pid. -/
theorem find?_append_of_not (pid : String) (pre post : List PlayerState) (a : PlayerState)
    (hpre : ∀ q ∈ pre, q.id ≠ pid) (ha : a.id = pid) :
    (pre ++ a :: post).find? (fun q => q.id = pid) = some a := by
  induction pre with
  | nil =>
    simp only [List.nil_append, List.find?_cons, decide_eq_true ha]
  | cons x xs ih =>
    have hx : x.id ≠ pid := hpre x (by simp)
    simp only [List.cons_append, List.find?_cons, decide_eq_false hx]
    exact ih (fun q hq => hpre q (by simp [hq]))

/-- updateFirstPlayer rewrites exactly the first pid entry. -/
theorem updateFirst_append_of_not (pid : String) (f : PlayerState → PlayerState)
    (pre post : List PlayerState) (a : PlayerState)
    (hpre : ∀ q ∈ pre, q.id ≠ pid) (ha : a.id = pid) :
    updateFirstPlayer pid f (pre ++ a :: post) = pre ++ f a :: post := by
  induction pre with
  | nil => simp [updateFirstPlayer, ha]
  | cons x xs ih =>
    have hx : x.id ≠ pid := hpre x (by simp)
    simp only [List.cons_append, updateFirstPlayer, if_neg hx]
    exact congrArg (fun l => x :: l) (ih (fun q hq => hpre q (by simp [hq])))

/-- findIdx by id over a roster split around the first occurrence of pid. -/
theorem findIdx_append_of_not (pid : String) (pre post : List PlayerState) (a : PlayerState)
    (hpre : ∀ q ∈ pre, q.id ≠ pid) (ha : a.id = pid) :
    (pre ++ a :: post).findIdx (fun q => q.id = pid) = pre.length := by
  induction pre with
  | nil =>
    simp [List.findIdx_cons, decide_eq_true ha]
  | cons x xs ih =>
    have hx : x.id ≠ pid := hpre x (by simp)
    simp only [List.cons_append, List.findIdx_cons, decide_eq_false hx, cond_false,
      List.length_cons]
    rw [ih (fun q hq => hpre q (by simp [hq]))]

/-- Lookup at the split point. -/
theorem getElem?_append_middle (pre post : List PlayerState) (a : PlayerState) :
    (pre ++ a :: post)[pre.length]? = some a := by
  induction pre with
  | nil => simp
  | cons x xs ih =>
    simpa only [List.cons_append, List.length_cons, List.getElem?_cons_succ] using ih

/-- Away from the split point the middle element is irrelevant. -/
theorem getElem?_append_middle_ne (pre post : List PlayerState) (a b : PlayerState)
    (j : Nat) (hj : j ≠ pre.length) :
    (pre ++ a :: post)[j]? = (pre ++ b :: post)[j]? := by
  induction pre generalizing j with
  | nil =>
    cases j with
    | zero => exact absurd rfl hj
    | succ k => simp [List.getElem?_cons_succ]
  | cons x xs ih =>
    cases j with
    | zero => simp
    | succ k =>
      simp only [List.cons_append, List.getElem?_cons_succ]
      exact ih k (by simpa using hj)

/-- The element at findIdx is the find? result. -/
theorem getElem?_findIdx_of_find? (p : Card → Bool) (l : List Card) (c : Card)
    (h : l.find? p = some c) : l[l.findIdx p]? = some c := by
  induction l with
  | nil => simp at h
  | cons x xs ih =>
    by_cases hx : p x = true
    · rw [List.find?_cons_of_pos xs hx] at h
      rw [List.findIdx_cons, hx, cond_true, List.getElem?_cons_zero]
      exact h
    · have hx2 : p x = false := by
        cases hpx : p x with
        | true => exact absurd hpx hx
        | false => rfl
      rw [List.find?_cons_of_neg xs hx] at h
      rw [List.findIdx_cons, hx2, cond_false, List.getElem?_cons_succ]
      exact ih h

/-- If nothing satisfies p, findIdx runs off the end. -/
theorem findIdx_of_all_not (p : Card → Bool) (l : List Card)
    (h : ∀ c ∈ l, p c = false) : l.findIdx p = l.length := by
  induction l with
  | nil => rfl
  | cons x xs ih =>
    rw [List.findIdx_cons, h x (by simp), cond_false, List.length_cons,
      ih (fun c hc => h c (by simp [hc]))]

/-- C7: with the turn-holder (hand of 14, at roster index pre.length in a
room of at least two players) discarding: the operation is stored exactly when
the named card id occurs in the hand; on success the first card with that id
moves from the hand to the top of the discard pile, the actor's isMyTurn is
cleared, and isMyTurn plus currentTurnPlayerId move to the roster neighbour at
index (pre.length + 1) mod players.length. -/
theorem c7_discard_moves_card_and_advances_turn
    (room : Room) (pid : String) (cardId : Nat) (pre post : List PlayerState)
    (actor : PlayerState)
    (hps : room.players = pre ++ actor :: post)
    (hpre : ∀ q ∈ pre, q.id ≠ pid)
    (hid : actor.id = pid)
    (hstatus : room.status = .playing)
    (hturn : actor.isMyTurn = true)
    (h14 : actor.hand.length = 14)
    (hn : 2 ≤ room.players.length) :
    ((discardCard room pid cardId).isSome = actor.hand.any (fun c => c.id = cardId)) ∧
    (∀ r2 c, discardCard room pid cardId = some r2 →
      actor.hand.find? (fun d => d.id = cardId) = some c →
      r2.discardPile = room.discardPile ++ [c] ∧
      r2.players[pre.length]? =
        some { actor with
          hand := actor.hand.eraseIdx (actor.hand.findIdx (fun d => d.id = cardId)),
          isMyTurn := false } ∧
      (r2.players[(pre.length + 1) % room.players.length]?).map (fun q => q.isMyTurn) =
        some true ∧
      (room.players[(pre.length + 1) % room.players.length]?).map (fun q => q.id) =
        some r2.currentTurnPlayerId) := by
  have hfind : room.players.find? (fun q => q.id = pid) = some actor := by
    rw [hps]
    exact find?_append_of_not pid pre post actor hpre hid
  have hlen1 : (pre ++ actor :: post).length = room.players.length := by rw [hps]
  have hnpos : 0 < room.players.length := by omega
  have hmodlt : (pre.length + 1) % room.players.length < room.players.length :=
    Nat.mod_lt _ hnpos
  have hilt : pre.length < room.players.length := by
    rw [hps, List.length_append, List.length_cons]
    omega
  have hmodne : (pre.length + 1) % room.players.length ≠ pre.length := by
    rcases Nat.lt_or_ge (pre.length + 1) room.players.length with hlt | hge
    · rw [Nat.mod_eq_of_lt hlt]
      omega
    · have hEq : pre.length + 1 = room.players.length := by omega
      rw [hEq, Nat.mod_self]
      omega
  constructor
  · cases hany : actor.hand.any (fun c => c.id = cardId) with
    | false =>
      have hnone : ∀ c ∈ actor.hand, (decide (c.id = cardId)) = false := by
        intro c hc
        have hcn := List.any_eq_false.mp hany c hc
        simp only [Bool.not_eq_true] at hcn
        exact hcn
      have hidx := findIdx_of_all_not (fun c => c.id = cardId) actor.hand hnone
      unfold discardCard
      rw [hfind]
      simp only [hturn, Bool.not_true, Bool.false_eq_true, if_false, h14, ne_eq,
        not_true_eq_false]
      rw [hidx, List.getElem?_eq_none (by omega)]
      rfl
    | true =>
      have hsome : (actor.hand.find? (fun c => c.id = cardId)).isSome = true :=
        List.find?_isSome.mpr (List.any_eq_true.mp hany)
      obtain ⟨c, hc⟩ := Option.isSome_iff_exists.mp hsome
      have hgetc := getElem?_findIdx_of_find? (fun d => d.id = cardId) actor.hand c hc
      unfold discardCard
      rw [hfind]
      simp only [hturn, Bool.not_true, Bool.false_eq_true, if_false, h14, ne_eq,
        not_true_eq_false]
      rw [hgetc]
      have hupd := updateFirst_append_of_not pid
        (fun q => { q with
          hand := q.hand.eraseIdx (actor.hand.findIdx (fun d => d.id = cardId)),
          isMyTurn := false }) pre post actor hpre hid
      rw [hps, hupd]
      have hfidx := findIdx_append_of_not pid pre post
        { actor with
          hand := actor.hand.eraseIdx (actor.hand.findIdx (fun d => d.id = cardId)),
          isMyTurn := false } hpre hid
      rw [hfidx]
      have hlen2 : (pre ++ { actor with
          hand := actor.hand.eraseIdx (actor.hand.findIdx (fun d => d.id = cardId)),
          isMyTurn := false } :: post).length = room.players.length := by
        rw [← hlen1, List.length_append, List.length_append, List.length_cons,
          List.length_cons]
      rw [hlen2]
      have hmid := getElem?_append_middle_ne pre post
        { actor with
          hand := actor.hand.eraseIdx (actor.hand.findIdx (fun d => d.id = cardId)),
          isMyTurn := false } actor ((pre.length + 1) % room.players.length) hmodne
      have hsome2 : ((pre ++ actor :: post)[(pre.length + 1) % room.players.length]?).isSome
          = true := by
        rw [List.getElem?_eq_getElem (by rw [hlen1]; exact hmodlt)]
        rfl
      rw [hmid]
      cases hnx : (pre ++ actor :: post)[(pre.length + 1) % room.players.length]? with
      | none => rw [hnx] at hsome2; simp at hsome2
      | some nextP => rfl
  · intro r2 c h hfc
    have hgetc := getElem?_findIdx_of_find? (fun d => d.id = cardId) actor.hand c hfc
    unfold discardCard at h
    rw [hfind] at h
    simp only [hturn, Bool.not_true, Bool.false_eq_true, if_false, h14, ne_eq,
      not_true_eq_false] at h
    rw [hgetc] at h
    have hupd := updateFirst_append_of_not pid
      (fun q => { q with
        hand := q.hand.eraseIdx (actor.hand.findIdx (fun d => d.id = cardId)),
        isMyTurn := false }) pre post actor hpre hid
    rw [hps, hupd] at h
    have hfidx := findIdx_append_of_not pid pre post
      { actor with
        hand := actor.hand.eraseIdx (actor.hand.findIdx (fun d => d.id = cardId)),
        isMyTurn := false } hpre hid
    rw [hfidx] at h
    have hlen2 : (pre ++ { actor with
        hand := actor.hand.eraseIdx (actor.hand.findIdx (fun d => d.id = cardId)),
        isMyTurn := false } :: post).length = room.players.length := by
      rw [← hlen1, List.length_append, List.length_append, List.length_cons,
        List.length_cons]
    rw [hlen2] at h
    have hmid := getElem?_append_middle_ne pre post
      { actor with
        hand := actor.hand.eraseIdx (actor.hand.findIdx (fun d => d.id = cardId)),
        isMyTurn := false } actor ((pre.length + 1) % room.players.length) hmodne
    rw [hmid] at h
    cases hnx : (pre ++ actor :: post)[(pre.length + 1) % room.players.length]? with
    | none =>
      rw [List.getElem?_eq_getElem (by rw [hlen1]; exact hmodlt)] at hnx
      simp at hnx
    | some nextP =>
      rw [hnx] at h
      have hr2 := (Option.some.inj h).symm
      refine ⟨by rw [hr2], ?_, ?_, ?_⟩
      · rw [hr2]
        show ((pre ++ _ :: post).set ((pre.length + 1) % room.players.length)
          { nextP with isMyTurn := true })[pre.length]? = _
        rw [List.getElem?_set_ne hmodne]
        exact getElem?_append_middle pre post _
      · rw [hr2]
        show (((pre ++ _ :: post).set ((pre.length + 1) % room.players.length)
          { nextP with isMyTurn := true })[(pre.length + 1) % room.players.length]?).map
          (fun q => q.isMyTurn) = some true
        rw [List.getElem?_set_self (by rw [hlen2]; exact hmodlt)]
        rfl
      · rw [hr2, hps, hlen1, hnx]
        rfl

/-- Turn-holder A with 14 cards for the C7 witness. -/
def c7pA : PlayerState :=
  { id := "A", name := "a", hand := (List.range 14).map (fun k => mk .spades .n5 (500 + k)),
    isMyTurn := true, hasDropped := false }

/-- Roster entry B for the C7 witness. -/
def c7pB : PlayerState :=
  { id := "B", name := "b", hand := [], isMyTurn := false, hasDropped := false }

/-- Roster entry C for the C7 witness. -/
def c7pC : PlayerState :=
  { id := "C", name := "c", hand := [], isMyTurn := false, hasDropped := false }

/-- Roster entry D for the C7 witness. -/
def c7pD : PlayerState :=
  { id := "D", name := "d", hand := [], isMyTurn := false, hasDropped := false }

/-- Four-player playing session [A, B, C, D] with A to act. -/
def c7room : Room :=
  { id := "R", players := [c7pA, c7pB, c7pC, c7pD], currentTurnPlayerId := "A",
    deckCount := 0, discardPile := [mk .hearts .Q 600], status := .playing,
    maxPlayers := 4, winner := none, deckCards := [] }

/-- Stored state after A discards card 500. -/
def c7roomAfter : Room := (discardCard c7room "A" 500).getD c7room

/-- C7 witness: A discarding card 500 succeeds and hands the turn to B (roster
index 1); discarding the absent id 999 is refused; the discarded card tops the
pile. -/
theorem c7_discard_witness :
    (discardCard c7room "A" 500).isSome = true ∧
    (discardCard c7room "A" 999).isSome = false ∧
    c7roomAfter.discardPile = c7room.discardPile ++ [mk .spades .n5 500] ∧
    (c7roomAfter.players[1]?).map (fun q => q.isMyTurn) = some true ∧
    (c7room.players[1]?).map (fun q => q.id) = some c7roomAfter.currentTurnPlayerId := by
  have h1 := c7_discard_moves_card_and_advances_turn c7room "A" 500
    [] [c7pB, c7pC, c7pD] c7pA (by decide) (by simp) (by decide) (by decide)
    (by decide) (by decide) (by decide)
  have h2 := c7_discard_moves_card_and_advances_turn c7room "A" 999
    [] [c7pB, c7pC, c7pD] c7pA (by decide) (by simp) (by decide) (by decide)
    (by decide) (by decide) (by decide)
  have h3 := h1.2 c7roomAfter (mk .spades .n5 500) (by decide) (by decide)
  exact ⟨h1.1.trans (by decide), h2.1.trans (by decide), h3.1, h3.2.2.1, h3.2.2.2⟩

/-! ## C5: the turn-flag invariant -/

/-- Number of roster entries currently holding the turn flag. -/
def countTurn (ps : List PlayerState) : Nat :=
  (ps.filter (fun p => p.isMyTurn)).length

/-- countTurn unfolding on cons. -/
theorem countTurn_cons (p : PlayerState) (ps : List PlayerState) :
    countTurn (p :: ps) = (if p.isMyTurn then 1 else 0) + countTurn ps := by
  unfold countTurn
  rw [List.filter_cons]
  cases hp : p.isMyTurn with
  | true =>
    simp only [hp, if_true, List.length_cons]
    omega
  | false => simp [hp]

/-- countTurn distributes over append. -/
theorem countTurn_append (ps qs : List PlayerState) :
    countTurn (ps ++ qs) = countTurn ps + countTurn qs := by
  unfold countTurn
  rw [List.filter_append, List.length_append]

/-- Updating the first pid entry exchanges that entry's flag bit. -/
theorem countTurn_updateFirst (pid : String) (f : PlayerState → PlayerState)
    (ps : List PlayerState) (p : PlayerState)
    (hf : ps.find? (fun q => q.id = pid) = some p) :
    countTurn (updateFirstPlayer pid f ps) + (if p.isMyTurn then 1 else 0) =
      countTurn ps + (if (f p).isMyTurn then 1 else 0) := by
  induction ps with
  | nil => simp at hf
  | cons q qs ih =>
    by_cases hq : q.id = pid
    · rw [List.find?_cons_of_pos _ (by simp [hq])] at hf
      have hpq : p = q := (Option.some.inj hf).symm
      subst hpq
      simp only [updateFirstPlayer, if_pos hq, countTurn_cons]
      omega
    · rw [List.find?_cons_of_neg _ (by simp [hq])] at hf
      have ih2 := ih hf
      simp only [updateFirstPlayer, if_neg hq, countTurn_cons]
      omega

/-- Setting index i exchanges that entry's flag bit. -/
theorem countTurn_set (ps : List PlayerState) (i : Nat) (q q2 : PlayerState)
    (hq : ps[i]? = some q) :
    countTurn (ps.set i q2) + (if q.isMyTurn then 1 else 0) =
      countTurn ps + (if q2.isMyTurn then 1 else 0) := by
  induction ps generalizing i with
  | nil => simp at hq
  | cons x xs ih =>
    cases i with
    | zero =>
      simp only [List.getElem?_cons_zero, Option.some.injEq] at hq
      subst hq
      simp only [List.set, countTurn_cons]
      omega
    | succ i =>
      simp only [List.getElem?_cons_succ] at hq
      have ih2 := ih i hq
      simp only [List.set, countTurn_cons]
      omega

/-- Erasing index i removes that entry's flag bit. -/
theorem countTurn_eraseIdx (ps : List PlayerState) (i : Nat) (q : PlayerState)
    (hq : ps[i]? = some q) :
    countTurn (ps.eraseIdx i) + (if q.isMyTurn then 1 else 0) = countTurn ps := by
  induction ps generalizing i with
  | nil => simp at hq
  | cons x xs ih =>
    cases i with
    | zero =>
      simp only [List.getElem?_cons_zero, Option.some.injEq] at hq
      subst hq
      simp only [List.eraseIdx, countTurn_cons]
      omega
    | succ i =>
      simp only [List.getElem?_cons_succ] at hq
      have ih2 := ih i hq
      simp only [List.eraseIdx, countTurn_cons]
      omega

/-- With no flag set anywhere, every member's flag is false. -/
theorem flag_false_of_countTurn_zero (ps : List PlayerState) (h : countTurn ps = 0) :
    ∀ p ∈ ps, p.isMyTurn = false := by
  intro p hp
  cases hflag : p.isMyTurn with
  | false => rfl
  | true =>
    have hmem : p ∈ ps.filter (fun q => q.isMyTurn) :=
      List.mem_filter.mpr ⟨hp, by simp [hflag]⟩
    have : 0 < countTurn ps := by
      unfold countTurn
      exact List.length_pos.mpr (fun he => by rw [he] at hmem; simp at hmem)
    omega

/-- The dealing loop keeps roster length and turn flags. -/
theorem dealHands_shape (ps : List PlayerState) (deck : List Card) :
    (dealHands ps deck).1.length = ps.length ∧
      countTurn (dealHands ps deck).1 = countTurn ps := by
  induction ps generalizing deck with
  | nil => exact ⟨rfl, rfl⟩
  | cons p ps ih =>
    have ih2 := ih (dealCards deck 13).2
    simp only [dealHands, List.length_cons, countTurn_cons]
    constructor
    · rw [ih2.1]
    · rw [ih2.2]

/-- setTurnAt at an in-range index over an all-false roster yields one flag. -/
theorem countTurn_setTurnAt (ps : List PlayerState) (i : Nat)
    (hi : i < ps.length) (h0 : countTurn ps = 0) :
    countTurn (setTurnAt ps i) = 1 := by
  unfold setTurnAt
  cases hq : ps[i]? with
  | none =>
    rw [List.getElem?_eq_getElem hi] at hq
    simp at hq
  | some q =>
    have hqf : q.isMyTurn = false := by
      refine flag_false_of_countTurn_zero ps h0 q ?_
      have := List.getElem?_eq_some.mp hq
      obtain ⟨hlt, hget⟩ := this
      exact hget ▸ List.getElem_mem hlt
    have hcs := countTurn_set ps i q { q with isMyTurn := true } hq
    rw [hqf, h0] at hcs
    simpa using hcs

/-- Fallback player used only to spell out head lookups in the trace below. -/
def emptyPlayer : PlayerState :=
  { id := "", name := "", hand := [], isMyTurn := false, hasDropped := false }

/-- Trace start: a fresh room (fixed random stream). -/
def c5start : Room := createRoom "R" 6 (fun _ => 0)

/-- After A joins. -/
def c5r1 : Room := (joinRoom c5start "A" "a").getD c5start

/-- After B joins. -/
def c5r2 : Room := (joinRoom c5r1 "B" "b").getD c5r1

/-- After the first (legitimate) start: A holds the turn. -/
def c5r3 : Room := (startGame c5r2).getD c5r2

/-- After A draws from the deck. -/
def c5r4 : Room := (drawCard c5r3 "A" false).getD c5r3

/-- Id of the first card in A's hand after the draw. -/
def c5cardId : Nat := ((c5r4.players.headD emptyPlayer).hand.headD (mk .spades .A 999)).id

/-- After A discards: the turn passes to B. -/
def c5r5 : Room := (discardCard c5r4 "A" c5cardId).getD c5r4

/-- After a second start_game on the playing session: players[0] (A) is flagged
while B keeps the turn flag from the discard. -/
def c5r6 : Room := (startGame c5r5).getD c5r5

set_option maxRecDepth 1000000 in
/-- C5 counterexample: the operation sequence create, join A, join B, start,
A draws, A discards, start again is accepted step by step by the Room Manager
and ends in a stored session with status playing and TWO isMyTurn flags: the
unguarded second start_game breaks the exactly-one-turn invariant. -/
theorem c5_double_start_two_turn_flags :
    joinRoom c5start "A" "a" = some c5r1 ∧
    joinRoom c5r1 "B" "b" = some c5r2 ∧
    startGame c5r2 = some c5r3 ∧
    drawCard c5r3 "A" false = some c5r4 ∧
    discardCard c5r4 "A" c5cardId = some c5r5 ∧
    startGame c5r5 = some c5r6 ∧
    c5r6.status = .playing ∧
    countTurn c5r6.players = 2 := by
  refine ⟨by decide, by decide, by decide, by decide, by decide, by decide, by decide,
    by decide⟩

/-- One stored-state transition of the Room Manager, with the amendment that
start_game is only applied to sessions still in status waiting; every other
operation is exactly as implemented. -/
inductive GuardedStep : Room → Room → Prop
  | join (pid name : String) {r r2 : Room} :
      joinRoom r pid name = some r2 → GuardedStep r r2
  | start {r r2 : Room} :
      r.status = .waiting → startGame r = some r2 → GuardedStep r r2
  | draw (pid : String) (fd : Bool) {r r2 : Room} :
      drawCard r pid fd = some r2 → GuardedStep r r2
  | discard (pid : String) (cid : Nat) {r r2 : Room} :
      discardCard r pid cid = some r2 → GuardedStep r r2
  | rearrange (pid : String) (ids : List Nat) {r r2 : Room} :
      rearrangeHand r pid ids = some r2 → GuardedStep r r2
  | debug (pid : String) {r r2 : Room} :
      debugWin r pid = some r2 → GuardedStep r r2
  | disconnect (pid : String) {r r2 : Room} :
      handleDisconnect r pid = some r2 → GuardedStep r r2

/-- The session invariant: exactly one turn flag while playing, none while
waiting, and a playing roster of at least two. -/
def RoomInv (r : Room) : Prop :=
  (r.status = .playing → countTurn r.players = 1) ∧
  (r.status = .waiting → countTurn r.players = 0) ∧
  (r.status = .playing → 2 ≤ r.players.length)

/-- updateFirstPlayer keeps the roster length. -/
theorem updateFirst_length (pid : String) (f : PlayerState → PlayerState)
    (ps : List PlayerState) :
    (updateFirstPlayer pid f ps).length = ps.length := by
  induction ps with
  | nil => rfl
  | cons q qs ih =>
    by_cases hq : q.id = pid
    · simp [updateFirstPlayer, hq]
    · simp [updateFirstPlayer, hq, ih]

/-- setTurnAt keeps the roster length. -/
theorem setTurnAt_length (ps : List PlayerState) (i : Nat) :
    (setTurnAt ps i).length = ps.length := by
  unfold setTurnAt
  cases h : ps[i]? with
  | none => rfl
  | some q => simp

/-- A flagged member forces at least one counted flag. -/
theorem one_le_countTurn_of_mem (ps : List PlayerState) (p : PlayerState)
    (hp : p ∈ ps) (hflag : p.isMyTurn = true) : 1 ≤ countTurn ps := by
  have hmem : p ∈ ps.filter (fun q => q.isMyTurn) :=
    List.mem_filter.mpr ⟨hp, by simp [hflag]⟩
  unfold countTurn
  exact List.length_pos.mpr (fun he => by rw [he] at hmem; simp at hmem)

/-- Shape of an accepted join: only possible while waiting, appends one
unflagged player. -/
theorem joinRoom_shape (r r2 : Room) (pid name : String)
    (h : joinRoom r pid name = some r2) :
    r.status = .waiting ∧ r2.status = .waiting ∧
      countTurn r2.players = countTurn r.players := by
  unfold joinRoom at h
  by_cases h1 : r.players.any (fun p => p.id = pid) = true
  · simp [h1] at h
  by_cases h2 : r.maxPlayers ≤ r.players.length
  · simp only [Bool.not_eq_true] at h1
    simp [h1, h2] at h
  by_cases h3 : r.status = Status.waiting
  swap
  · simp only [Bool.not_eq_true] at h1
    simp [h1, h2, h3] at h
  simp only [Bool.not_eq_true] at h1
  simp only [h1, Bool.false_eq_true, if_false, if_neg h2, h3, ne_eq,
    not_true_eq_false, Option.some.injEq] at h
  have hr := h.symm
  refine ⟨h3, by rw [hr], ?_⟩
  rw [hr]
  show countTurn (r.players ++ [_]) = countTurn r.players
  rw [countTurn_append, countTurn_cons]
  simp [countTurn]

/-- Shape of an accepted start: needs two players, flags exactly one player
when no flag was set, keeps the roster length, ends in playing. -/
theorem startGame_shape (r r2 : Room) (h : startGame r = some r2) :
    r2.status = .playing ∧ r2.players.length = r.players.length ∧
      2 ≤ r.players.length ∧
      (countTurn r.players = 0 → countTurn r2.players = 1) := by
  unfold startGame at h
  by_cases hlt : r.players.length < 2
  · simp [hlt] at h
  simp only [if_neg hlt, Option.some.injEq] at h
  have hr := h.symm
  obtain ⟨hdl, hdc⟩ := dealHands_shape r.players r.deckCards
  refine ⟨by rw [hr], ?_, by omega, ?_⟩
  · rw [hr]
    show (setTurnAt (dealHands r.players r.deckCards).1 0).length = r.players.length
    rw [setTurnAt_length, hdl]
  · intro h0
    rw [hr]
    show countTurn (setTurnAt (dealHands r.players r.deckCards).1 0) = 1
    refine countTurn_setTurnAt _ 0 (by omega) (by rw [hdc]; exact h0)

/-- Shape of an accepted draw: status, flags and roster length unchanged. -/
theorem drawCard_shape (r r2 : Room) (pid : String) (fd : Bool)
    (h : drawCard r pid fd = some r2) :
    r2.status = r.status ∧ countTurn r2.players = countTurn r.players ∧
      r2.players.length = r.players.length := by
  unfold drawCard at h
  cases hf : r.players.find? (fun p => p.id = pid) with
  | none => rw [hf] at h; exact absurd h (by simp)
  | some p =>
    rw [hf] at h
    by_cases ht : p.isMyTurn = true
    swap
    · simp only [Bool.not_eq_true] at ht
      simp [ht] at h
    by_cases hl : 14 ≤ p.hand.length
    · simp [ht, hl] at h
    simp only [ht, Bool.not_true, Bool.false_eq_true, if_false, if_neg hl] at h
    have hcount : ∀ card : Card,
        countTurn (updateFirstPlayer pid
          (fun q => { q with hand := q.hand ++ [card] }) r.players) =
          countTurn r.players := by
      intro card
      have hcu := countTurn_updateFirst pid
        (fun q => { q with hand := q.hand ++ [card] }) r.players p hf
      have hb : (if ((fun q => { q with hand := q.hand ++ [card] } :
          PlayerState → PlayerState) p).isMyTurn then (1 : Nat) else 0) =
          (if p.isMyTurn then 1 else 0) := rfl
      rw [hb] at hcu
      omega
    cases fd with
    | false =>
      simp only [Bool.false_eq_true, if_false] at h
      cases hdk : r.deckCards with
      | nil => rw [hdk] at h; exact absurd h (by simp)
      | cons card rest =>
        rw [hdk] at h
        have hr := (Option.some.inj h).symm
        refine ⟨by rw [hr], ?_, ?_⟩
        · rw [hr]
          exact hcount card
        · rw [hr]
          show (updateFirstPlayer pid _ r.players).length = r.players.length
          exact updateFirst_length _ _ _
    | true =>
      simp only [if_true] at h
      cases hlast : r.discardPile.getLast? with
      | none => rw [hlast] at h; exact absurd h (by simp)
      | some card =>
        rw [hlast] at h
        have hr := (Option.some.inj h).symm
        refine ⟨by rw [hr], ?_, ?_⟩
        · rw [hr]
          exact hcount card
        · rw [hr]
          show (updateFirstPlayer pid _ r.players).length = r.players.length
          exact updateFirst_length _ _ _

/-- Shape of an accepted rearrange: status, flags and roster length
unchanged. -/
theorem rearrangeHand_shape (r r2 : Room) (pid : String) (ids : List Nat)
    (h : rearrangeHand r pid ids = some r2) :
    r2.status = r.status ∧ countTurn r2.players = countTurn r.players ∧
      r2.players.length = r.players.length := by
  unfold rearrangeHand at h
  cases hf : r.players.find? (fun p => p.id = pid) with
  | none => rw [hf] at h; exact absurd h (by simp)
  | some p =>
    rw [hf] at h
    by_cases hlen : ids.length = p.hand.length
    swap
    · simp [hlen] at h
    by_cases hall : ids.all (fun i => p.hand.any (fun c => c.id = i)) = true
    swap
    · simp only [Bool.not_eq_true] at hall
      simp [hlen, hall] at h
    simp only [hlen, ne_eq, not_true_eq_false, if_false, hall, Bool.not_true,
      Bool.false_eq_true] at h
    have hr := (Option.some.inj h).symm
    have hcu := countTurn_updateFirst pid
      (fun q => { q with hand := ids.filterMap (cardMapGet p.hand) }) r.players p hf
    have hb : (if ((fun q => { q with hand := ids.filterMap (cardMapGet p.hand) } :
        PlayerState → PlayerState) p).isMyTurn then (1 : Nat) else 0) =
        (if p.isMyTurn then 1 else 0) := rfl
    rw [hb] at hcu
    refine ⟨by rw [hr], ?_, ?_⟩
    · rw [hr]
      show countTurn (updateFirstPlayer pid _ r.players) = countTurn r.players
      omega
    · rw [hr]
      show (updateFirstPlayer pid _ r.players).length = r.players.length
      exact updateFirst_length _ _ _

/-- Shape of an accepted debug_win: the session is ended. -/
theorem debugWin_shape (r r2 : Room) (pid : String)
    (h : debugWin r pid = some r2) : r2.status = .ended := by
  unfold debugWin at h
  cases hf : r.players.find? (fun p => p.id = pid) with
  | none => rw [hf] at h; exact absurd h (by simp)
  | some p =>
    rw [hf] at h
    have hr := (Option.some.inj h).symm
    rw [hr]

/-- Shape of an accepted discard: status and roster length unchanged, the actor
held a flag, and a single flag is handed on. -/
theorem discardCard_shape (r r2 : Room) (pid : String) (cid : Nat)
    (h : discardCard r pid cid = some r2) :
    r2.status = r.status ∧ r2.players.length = r.players.length ∧
      1 ≤ countTurn r.players ∧
      (countTurn r.players = 1 → countTurn r2.players = 1) := by
  unfold discardCard at h
  cases hf : r.players.find? (fun p => p.id = pid) with
  | none => rw [hf] at h; exact absurd h (by simp)
  | some p =>
    rw [hf] at h
    by_cases ht : p.isMyTurn = true
    swap
    · simp only [Bool.not_eq_true] at ht
      simp [ht] at h
    by_cases hl : p.hand.length = 14
    swap
    · simp [ht, hl] at h
    simp only [ht, Bool.not_true, Bool.false_eq_true, if_false, hl, ne_eq,
      not_true_eq_false, if_neg, not_false_eq_true] at h
    cases hcard : p.hand[p.hand.findIdx (fun c => c.id = cid)]? with
    | none => rw [hcard] at h; exact absurd h (by simp)
    | some discarded =>
      rw [hcard] at h
      generalize hp1 : updateFirstPlayer pid (fun q => { q with hand := q.hand.eraseIdx (p.hand.findIdx (fun c => c.id = cid)), isMyTurn := false }) r.players = players1 at h
      generalize hidx : (players1.findIdx (fun q => q.id = pid) + 1) % players1.length =
        nextIdx at h
      cases hnext : players1[nextIdx]? with
      | none => rw [hnext] at h; exact absurd h (by simp)
      | some nextP =>
        rw [hnext] at h
        have hr := (Option.some.inj h).symm
        have hge1 : 1 ≤ countTurn r.players :=
          one_le_countTurn_of_mem r.players p (List.mem_of_find?_eq_some hf) ht
        have hcu := countTurn_updateFirst pid (fun q => { q with hand := q.hand.eraseIdx (p.hand.findIdx (fun c => c.id = cid)), isMyTurn := false }) r.players p hf
        rw [hp1, ht] at hcu
        have hb : (if ((fun q => { q with hand := q.hand.eraseIdx (p.hand.findIdx (fun c => c.id = cid)), isMyTurn := false } : PlayerState → PlayerState) p).isMyTurn = true
            then (1 : Nat) else 0) = 0 := rfl
        rw [hb] at hcu
        simp only [if_true] at hcu
        have hlen1 : players1.length = r.players.length := by
          rw [← hp1]
          exact updateFirst_length _ _ _
        refine ⟨by rw [hr], ?_, hge1, ?_⟩
        · rw [hr]
          show (players1.set nextIdx _).length = r.players.length
          rw [List.length_set, hlen1]
        · intro h1
          have hp1c : countTurn players1 = 0 := by omega
          have hnf : nextP.isMyTurn = false := by
            refine flag_false_of_countTurn_zero players1 hp1c nextP ?_
            obtain ⟨hlt, hget⟩ := List.getElem?_eq_some.mp hnext
            exact hget ▸ List.getElem_mem hlt
          have hcs := countTurn_set players1 nextIdx nextP
            { nextP with isMyTurn := true } hnext
          rw [hnf, hp1c] at hcs
          rw [hr]
          show countTurn (players1.set nextIdx { nextP with isMyTurn := true }) = 1
          simpa using hcs

/-- Shape of an accepted disconnect: status unchanged; during play the
two-player branch never persists, one player is removed, and with three or
more players a single flag survives; outside play flags can only go away. -/
theorem handleDisconnect_shape (r r2 : Room) (pid : String)
    (h : handleDisconnect r pid = some r2) :
    r2.status = r.status ∧
      (r.status = .playing →
        r.players.length ≠ 2 ∧ r2.players.length + 1 = r.players.length ∧
        (3 ≤ r.players.length → countTurn r.players = 1 → countTurn r2.players = 1)) ∧
      (r.status ≠ .playing → countTurn r2.players ≤ countTurn r.players) := by
  unfold handleDisconnect at h
  simp only [] at h
  cases hpl : r.players[r.players.findIdx (fun p => p.id = pid)]? with
  | none => rw [hpl] at h; exact absurd h (by simp)
  | some player =>
    rw [hpl] at h
    simp only [] at h
    obtain ⟨hplt, hget⟩ := List.getElem?_eq_some.mp hpl
    have hbit := countTurn_eraseIdx r.players
      (r.players.findIdx (fun p => p.id = pid)) player hpl
    by_cases hsp : r.status = Status.playing
    · rw [if_pos hsp] at h
      by_cases h2 : r.players.length = 2
      · simp [h2] at h
      rw [if_neg h2] at h
      by_cases hguard : (player.isMyTurn && decide
          (0 < (r.players.eraseIdx (r.players.findIdx (fun p => p.id = pid))).length)) = true
      · rw [if_pos hguard] at h
        cases hnx : (r.players.eraseIdx (r.players.findIdx (fun p => p.id = pid)))[
            if (r.players.eraseIdx (r.players.findIdx (fun p => p.id = pid))).length ≤
              r.players.findIdx (fun p => p.id = pid) then 0
            else r.players.findIdx (fun p => p.id = pid)]? with
        | none => rw [hnx] at h; exact absurd h (by simp)
        | some nextP =>
          rw [hnx] at h
          have hr := (Option.some.inj h).symm
          have hflag : player.isMyTurn = true := by
            cases hfl : player.isMyTurn with
            | true => rfl
            | false => rw [hfl] at hguard; simp at hguard
          have hlen : (r.players.eraseIdx
              (r.players.findIdx (fun p => p.id = pid))).length + 1 =
              r.players.length := by
            rw [List.length_eraseIdx, if_pos hplt]
            omega
          refine ⟨by rw [hr], ?_, ?_⟩
          · intro _
            refine ⟨h2, ?_, ?_⟩
            · rw [hr]
              show ((r.players.eraseIdx _).set _ _).length + 1 = r.players.length
              rw [List.length_set]
              exact hlen
            · intro _ h1
              rw [hflag] at hbit
              simp only [if_true] at hbit
              have h0 : countTurn (r.players.eraseIdx
                  (r.players.findIdx (fun p => p.id = pid))) = 0 := by omega
              have hnf : nextP.isMyTurn = false := by
                refine flag_false_of_countTurn_zero _ h0 nextP ?_
                obtain ⟨hlt2, hget2⟩ := List.getElem?_eq_some.mp hnx
                exact hget2 ▸ List.getElem_mem hlt2
              have hcs := countTurn_set _ _ nextP { nextP with isMyTurn := true } hnx
              rw [hnf, h0] at hcs
              rw [hr]
              show countTurn ((r.players.eraseIdx _).set _ _) = 1
              simpa using hcs
          · intro hnp
            exact absurd hsp hnp
      · rw [if_neg hguard] at h
        have hr := (Option.some.inj h).symm
        refine ⟨by rw [hr], ?_, ?_⟩
        · intro _
          refine ⟨h2, ?_, ?_⟩
          · rw [hr]
            show (r.players.eraseIdx _).length + 1 = r.players.length
            rw [List.length_eraseIdx, if_pos hplt]
            omega
          · intro h3 h1
            have hlen0 : 0 < (r.players.eraseIdx
                (r.players.findIdx (fun p => p.id = pid))).length := by
              rw [List.length_eraseIdx, if_pos hplt]
              omega
            have hnf : player.isMyTurn = false := by
              cases hfl : player.isMyTurn with
              | false => rfl
              | true =>
                exact absurd (by rw [hfl]; simp [hlen0]) hguard
            rw [hnf] at hbit
            simp only [Bool.false_eq_true, if_false] at hbit
            rw [hr]
            show countTurn (r.players.eraseIdx _) = 1
            omega
        · intro hnp
          exact absurd hsp hnp
    · rw [if_neg hsp] at h
      have hr := (Option.some.inj h).symm
      refine ⟨by rw [hr], fun hp => absurd hp hsp, ?_⟩
      intro _
      rw [hr]
      show countTurn (r.players.eraseIdx _) ≤ countTurn r.players
      omega

/-- A freshly created room satisfies the invariant. -/
theorem roomInv_init (rid : String) (mp : Nat) (rand : Nat → Nat) :
    RoomInv (createRoom rid mp rand) := by
  have hst : (createRoom rid mp rand).status = Status.waiting := rfl
  have hpl : (createRoom rid mp rand).players = [] := rfl
  refine ⟨?_, ?_, ?_⟩
  · intro hp
    rw [hst] at hp
    exact absurd hp (by decide)
  · intro _
    rw [hpl]
    rfl
  · intro hp
    rw [hst] at hp
    exact absurd hp (by decide)

/-- Every guarded step preserves the invariant. -/
theorem roomInv_step (r r2 : Room) (hinv : RoomInv r) (hs : GuardedStep r r2) :
    RoomInv r2 := by
  obtain ⟨hI, hJ, hK⟩ := hinv
  cases hs with
  | join pid name h =>
    obtain ⟨hw, hw2, hc⟩ := joinRoom_shape r r2 pid name h
    refine ⟨?_, ?_, ?_⟩
    · intro hp
      rw [hp] at hw2
      exact absurd hw2 (by decide)
    · intro _
      rw [hc]
      exact hJ hw
    · intro hp
      rw [hp] at hw2
      exact absurd hw2 (by decide)
  | start hw h =>
    obtain ⟨hp2, hlen, h2le, hcnt⟩ := startGame_shape r r2 h
    refine ⟨?_, ?_, ?_⟩
    · intro _
      exact hcnt (hJ hw)
    · intro hwp
      rw [hwp] at hp2
      exact absurd hp2 (by decide)
    · intro _
      rw [hlen]
      exact h2le
  | draw pid fd h =>
    obtain ⟨hse, hc, hlen⟩ := drawCard_shape r r2 pid fd h
    exact ⟨fun hp => by rw [hc]; exact hI (hse ▸ hp),
      fun hw => by rw [hc]; exact hJ (hse ▸ hw),
      fun hp => by rw [hlen]; exact hK (hse ▸ hp)⟩
  | discard pid cid h =>
    obtain ⟨hse, hlen, hge1, hcnt⟩ := discardCard_shape r r2 pid cid h
    refine ⟨?_, ?_, ?_⟩
    · intro hp
      exact hcnt (hI (hse ▸ hp))
    · intro hw
      have h0 := hJ (hse ▸ hw)
      omega
    · intro hp
      rw [hlen]
      exact hK (hse ▸ hp)
  | rearrange pid ids h =>
    obtain ⟨hse, hc, hlen⟩ := rearrangeHand_shape r r2 pid ids h
    exact ⟨fun hp => by rw [hc]; exact hI (hse ▸ hp),
      fun hw => by rw [hc]; exact hJ (hse ▸ hw),
      fun hp => by rw [hlen]; exact hK (hse ▸ hp)⟩
  | debug pid h =>
    have hp2 := debugWin_shape r r2 pid h
    refine ⟨?_, ?_, ?_⟩
    · intro hp
      rw [hp] at hp2
      exact absurd hp2 (by decide)
    · intro hw
      rw [hw] at hp2
      exact absurd hp2 (by decide)
    · intro hp
      rw [hp] at hp2
      exact absurd hp2 (by decide)
  | disconnect pid h =>
    obtain ⟨hse, hplay, hnot⟩ := handleDisconnect_shape r r2 pid h
    by_cases hsp : r.status = Status.playing
    · obtain ⟨hne2, hlen, hcnt⟩ := hplay hsp
      have hK3 : 3 ≤ r.players.length := by
        have := hK hsp
        omega
      refine ⟨?_, ?_, ?_⟩
      · intro _
        exact hcnt hK3 (hI hsp)
      · intro hw
        rw [hse, hsp] at hw
        exact absurd hw (by decide)
      · intro _
        omega
    · refine ⟨?_, ?_, ?_⟩
      · intro hp
        rw [hse] at hp
        exact absurd hp hsp
      · intro hw
        rw [hse] at hw
        have h0 := hJ hw
        have hle := hnot hsp
        omega
      · intro hp
        rw [hse] at hp
        exact absurd hp hsp

/-- Every reachable state under guarded steps satisfies the invariant. -/
theorem roomInv_reachable (rid : String) (mp : Nat) (rand : Nat → Nat) (r : Room)
    (h : Relation.ReflTransGen GuardedStep (createRoom rid mp rand) r) :
    RoomInv r := by
  induction h with
  | refl => exact roomInv_init rid mp rand
  | tail hsteps hstep ih => exact roomInv_step _ _ ih hstep

/-- C5 amended: for every session state reachable from creation by operations
in which start_game is only applied to sessions still in waiting (all other
operations unrestricted), a playing session has exactly one isMyTurn flag. -/
theorem c5_turn_invariant_with_guarded_start (rid : String) (mp : Nat)
    (rand : Nat → Nat) (r : Room)
    (h : Relation.ReflTransGen GuardedStep (createRoom rid mp rand) r)
    (hp : r.status = .playing) :
    countTurn r.players = 1 :=
  (roomInv_reachable rid mp rand r h).1 hp

set_option maxRecDepth 1000000 in
/-- C5 witness: the guarded invariant applied to the concrete reachable state
create → join A → join B → start. -/
theorem c5_turn_invariant_witness : countTurn c5r3.players = 1 := by
  have h01 : GuardedStep c5start c5r1 := GuardedStep.join "A" "a" (by decide)
  have h12 : GuardedStep c5r1 c5r2 := GuardedStep.join "B" "b" (by decide)
  have h23 : GuardedStep c5r2 c5r3 := GuardedStep.start (by decide) (by decide)
  exact c5_turn_invariant_with_guarded_start "R" 6 (fun _ => 0) c5r3
    (Relation.ReflTransGen.tail (Relation.ReflTransGen.tail
      (Relation.ReflTransGen.tail Relation.ReflTransGen.refl h01) h12) h23)
    (by decide)

end Rummy
